import Mathlib

/-!
Shallow embedding of pavver/Component-FlexibleCircularBuffer
(src/include/FlexibleCircularBuffer.h and src/FlexibleCircularBuffer.cpp).

Modelling conventions:
* `int16_t` fields (`startIndex`, `endIndex`, `_indexFirstLine`,
  `_indexLastLine`) are modelled as `Int`; `uint16_t` quantities
  (`_bufferSize`, `_maxLines`, `length`) as `Nat`; the `uint32_t` line id
  as `Nat` reduced modulo `2 ^ 32` exactly where the source increments it.
  Well-formed states restrict `bufferSize`/`maxLines` to at most `32767`,
  under which every value the source stores into an `int16_t` fits and the
  `Int`/`Nat` semantics agree exactly with the C integer semantics
  (all C arithmetic here is performed after promotion to `int`).
* The byte arena `buff` is a `List α`, `memcpy` is `memcpyAt`.
* The unbounded eviction loop `FixIntersection` is modelled by the fueled
  `fixGo`; a `none` result of a public operation means the source code does
  not terminate on that input (the loop state is just `_indexFirstLine`,
  which ranges over `maxLines` values and the marker array is not mutated
  by the loop, so if `maxLines + 1` iterations do not exit, no number of
  iterations does; `fixGo_none_of_all` / `fixGo_cycles` make this exact).
* On an empty buffer (`_indexLastLine == -1`) line 175 of the header reads
  `lines[-1].endIndex`, an out-of-bounds access (see `WriteLineChecked`,
  which models every marker-array subscript of the placement code as a
  checked access and is used for claim C10).  For the total model
  `WriteLine` the empty case is modelled with previous `endIndex = -1`,
  which reproduces exactly the three adjacent uses that the source does
  guard with `_indexLastLine == -1 ?` ternaries (placement offset `0`,
  new `endIndex = length - 1`, `startIndex = 0`) and always selects the
  non-fragmented branch there.
-/

namespace FCBuf

/-- Marker of one line: `struct BufferLineMarker` (header lines 91-122). -/
structure BufferLineMarker where
  startIndex : Int
  endIndex : Int
  id : Nat
deriving Repr, DecidableEq

/-- `BufferLineMarker::inIntersection` (header lines 102-121), receiver `a`,
argument `b`. -/
def inIntersection (a b : BufferLineMarker) : Bool :=
  if a.startIndex < a.endIndex ∧ b.startIndex < b.endIndex then
    if a.startIndex ≤ b.startIndex then a.endIndex ≥ b.startIndex
    else b.endIndex ≥ a.startIndex
  else if a.startIndex > a.endIndex ∧ b.startIndex > b.endIndex then true
  else if a.startIndex > a.endIndex then
    b.startIndex ≤ a.endIndex ∨ b.endIndex ≥ a.startIndex
  else
    a.startIndex ≤ b.endIndex ∨ a.endIndex ≥ b.startIndex

/-- The overlap test of spec section 4.2, transcribed from the spec text:
both contiguous (`start <= end`): `A.start <= B.start ? A.end >= B.start :
B.end >= A.start`; both fragmented (`start > end`): always overlap; exactly
one fragmented (say `A`): `B.start <= A.end OR B.end >= A.start`, and
symmetrically. -/
def specOverlaps (a b : BufferLineMarker) : Bool :=
  if a.startIndex ≤ a.endIndex ∧ b.startIndex ≤ b.endIndex then
    if a.startIndex ≤ b.startIndex then a.endIndex ≥ b.startIndex
    else b.endIndex ≥ a.startIndex
  else if a.startIndex > a.endIndex ∧ b.startIndex > b.endIndex then true
  else if a.startIndex > a.endIndex then
    b.startIndex ≤ a.endIndex ∨ b.endIndex ≥ a.startIndex
  else
    a.startIndex ≤ b.endIndex ∨ a.endIndex ≥ b.startIndex

/-- State of `FlexibleCircularBuffer<BuffT>` (header lines 347-362). -/
structure Buffer (α : Type) where
  buff : List α
  lines : List BufferLineMarker
  bufferSize : Nat
  maxLines : Nat
  indexFirstLine : Int
  indexLastLine : Int
deriving Repr

/-- Read `lines[i]` (unchecked; callers establish `0 ≤ i < maxLines`). -/
def linesAt (s : Buffer α) (i : Int) : BufferLineMarker :=
  s.lines.getD i.toNat ⟨0, 0, 0⟩

/-- Read `lines[i]` as the checked access of a shallow embedding:
`none` when `i` is outside `[0, maxLines)`. -/
def linesAtChecked (s : Buffer α) (i : Int) : Option BufferLineMarker :=
  if 0 ≤ i ∧ i < (s.maxLines : Int) then some (s.lines.getD i.toNat ⟨0, 0, 0⟩)
  else none

/-- `getNextIndex` (header lines 510-514): `(index + 1) % _maxLines`. -/
def getNextIndex (ml : Nat) (i : Int) : Int :=
  (i + 1) % (ml : Int)

/-- `memcpy(buff + dst, data, data.length)`: overwrite `buff[dst + k]` with
`data[k]`. -/
def memcpyAt : List α → Nat → List α → List α
  | b, _, [] => b
  | b, i, x :: xs => memcpyAt (b.set i x) (i + 1) xs

/-- One step of the `while` loop of `FixIntersection` (header lines
524-534): if `lines[first]` intersects `newLine`, advance `first`
(mod `maxLines`) and repeat; the fuel argument only counts iterations. -/
def fixGo (lines : List BufferLineMarker) (ml : Nat) :
    Nat → Int → BufferLineMarker → Option Int
  | 0, _, _ => none
  | fuel + 1, first, nl =>
    if inIntersection (lines.getD first.toNat ⟨0, 0, 0⟩) nl then
      fixGo lines ml fuel ((first + 1) % (ml : Int)) nl
    else some first

/-- `FixIntersection` with enough fuel to decide termination: the loop
mutates only `_indexFirstLine`, which takes at most `maxLines` values, so
if `maxLines + 1` iterations do not exit the loop never exits. -/
def fixIntersection (lines : List BufferLineMarker) (ml : Nat)
    (first : Int) (nl : BufferLineMarker) : Option Int :=
  fixGo lines ml (ml + 1) first nl

/-- Previous end cell used by the `WriteLine` placement code: the source
reads `lines[_indexLastLine].endIndex`; on an empty buffer the modelled
value is `-1` (see the header comment of this file and
`WriteLineChecked`). -/
def prevEndOf (s : Buffer α) : Int :=
  if s.indexLastLine = -1 then -1 else (linesAt s s.indexLastLine).endIndex

/-- Arena contents after the copy phase of `WriteLine` (header lines
174-193): one contiguous copy when the data fits before the end of the
arena, otherwise a copy up to the end followed by a copy of the remainder
to the front. -/
def placedBuff (s : Buffer α) (data : List α) (length : Nat) : List α :=
  if prevEndOf s + length + 1 < (s.bufferSize : Int) then
    memcpyAt s.buff (prevEndOf s + 1).toNat (data.take length)
  else
    memcpyAt
      (memcpyAt s.buff (prevEndOf s + 1).toNat
        (data.take ((s.bufferSize : Int) - prevEndOf s - 1).toNat))
      0 ((data.take length).drop ((s.bufferSize : Int) - prevEndOf s - 1).toNat)

/-- New `endIndex` computed by the copy phase of `WriteLine` (header lines
178 and 186-192). -/
def placedEnd (s : Buffer α) (length : Nat) : Int :=
  if prevEndOf s + length + 1 < (s.bufferSize : Int) then prevEndOf s + length
  else (length : Int) - ((s.bufferSize : Int) - prevEndOf s - 1) - 1

/-- The marker built by `WriteLine` (header lines 170-206). -/
def newMarkerOf (s : Buffer α) (length : Nat) : BufferLineMarker :=
  ⟨if s.indexLastLine = -1 then 0 else (prevEndOf s + 1) % (s.bufferSize : Int),
   placedEnd s length,
   if s.indexLastLine = -1 then 0
   else ((linesAt s s.indexLastLine).id + 1) % 2 ^ 32⟩

/-- `WriteLine` (header lines 154-223).  Returns `some (id, state)`;
`none` means the eviction loop does not terminate. -/
def WriteLine (s : Buffer α) (data : List α) (length : Nat) :
    Option (Nat × Buffer α) :=
  if length = 0 then some (0, s)
  else if length > s.bufferSize / 2 then some (0, s)
  else
    let nextIndex := getNextIndex s.maxLines s.indexLastLine
    let newLine := newMarkerOf s length
    if s.indexFirstLine = -1 then
      some (newLine.id,
        { s with buff := placedBuff s data length,
                 lines := s.lines.set nextIndex.toNat newLine,
                 indexFirstLine := nextIndex, indexLastLine := nextIndex })
    else
      match fixIntersection s.lines s.maxLines s.indexFirstLine newLine with
      | none => none
      | some f =>
        some (newLine.id,
          { s with buff := placedBuff s data length,
                   lines := s.lines.set nextIndex.toNat newLine,
                   indexFirstLine := f, indexLastLine := nextIndex })

/-- `calculateLineLength` (header lines 536-541). -/
def calculateLineLength (cap : Nat) (m : BufferLineMarker) : Int :=
  if m.startIndex < m.endIndex then m.endIndex - m.startIndex + 1
  else (cap : Int) - m.startIndex + m.endIndex + 1

/-- Common tail of both `WriteToLastLine` variants: store the extended
marker, run `FixIntersection(lines[_indexLastLine])` (note the loop then
compares markers against the updated array), return the id. -/
def appendFinish (s : Buffer α) (buff2 : List α) (m2 : BufferLineMarker)
    (id : Nat) : Option (Nat × Buffer α) :=
  let lines2 := s.lines.set s.indexLastLine.toNat m2
  match fixIntersection lines2 s.maxLines s.indexFirstLine m2 with
  | none => none
  | some f =>
    some (id, { s with buff := buff2, lines := lines2, indexFirstLine := f })

/-- Generic `WriteToLastLine` (header lines 230-259).  Its guard checks
only the current length of the last line against `bufferSize / 2`. -/
def WriteToLastLine (s : Buffer α) (id : Nat) (data : List α)
    (length : Nat) : Option (Nat × Buffer α) :=
  if s.indexLastLine = -1 ∨ id ≠ (linesAt s s.indexLastLine).id ∨
      calculateLineLength s.bufferSize (linesAt s s.indexLastLine) >
        ((s.bufferSize : Int) / 2) then
    some (0, s)
  else
    let m := linesAt s s.indexLastLine
    if m.endIndex + length + 1 < (s.bufferSize : Int) then
      appendFinish s
        (memcpyAt s.buff (m.endIndex + 1).toNat (data.take length))
        { m with endIndex := m.endIndex + length } id
    else
      appendFinish s
        (memcpyAt
          (memcpyAt s.buff (m.endIndex + 1).toNat
            (data.take ((s.bufferSize : Int) - m.endIndex - 1).toNat))
          0
          ((data.take length).drop ((s.bufferSize : Int) - m.endIndex - 1).toNat))
        { m with endIndex := (length : Int) - ((s.bufferSize : Int) - m.endIndex - 1) - 1 }
        id

/-- `FlexibleCircularBuffer<char>::WriteToLastLine`
(FlexibleCircularBuffer.cpp lines 10-39).  Its guard checks current length
plus new length; its copies start at `buff + endIndex` (not `endIndex + 1`). -/
def WriteToLastLineChar (s : Buffer α) (id : Nat) (data : List α)
    (length : Nat) : Option (Nat × Buffer α) :=
  if s.indexLastLine = -1 ∨ id ≠ (linesAt s s.indexLastLine).id ∨
      calculateLineLength s.bufferSize (linesAt s s.indexLastLine) + length >
        ((s.bufferSize : Int) / 2) then
    some (0, s)
  else
    let m := linesAt s s.indexLastLine
    if m.endIndex + length < (s.bufferSize : Int) then
      appendFinish s
        (memcpyAt s.buff m.endIndex.toNat (data.take length))
        { m with endIndex := m.endIndex + length - 1 } id
    else
      appendFinish s
        (memcpyAt
          (memcpyAt s.buff m.endIndex.toNat
            (data.take ((s.bufferSize : Int) - m.endIndex - 1).toNat))
          0
          (((data.take length).drop ((s.bufferSize : Int) - m.endIndex - 2).toNat).take
            ((length : Int) - ((s.bufferSize : Int) - m.endIndex - 2) - 1).toNat))
        { m with endIndex := (length : Int) - ((s.bufferSize : Int) - m.endIndex - 2) - 1 - 1 }
        id

/-- Snapshot returned to readers (`BufferLine`, header lines 30-73). -/
structure BufferLine (α : Type) where
  data : List α
  length : Nat
  id : Nat
deriving Repr, DecidableEq

/-- `AllocLineData` (header lines 543-557): reassemble one line into an
owned copy of `calculateLineLength` cells. -/
def AllocLineData (s : Buffer α) (m : BufferLineMarker) : List α :=
  if m.startIndex < m.endIndex then
    (s.buff.drop m.startIndex.toNat).take (calculateLineLength s.bufferSize m).toNat
  else
    (s.buff.drop m.startIndex.toNat).take (s.bufferSize - m.startIndex.toNat) ++
      s.buff.take (m.endIndex + 1).toNat

/-- `CreateBufferLine` (header lines 559-564). -/
def CreateBufferLine (s : Buffer α) (i : Int) : BufferLine α :=
  ⟨AllocLineData s (linesAt s i),
   (calculateLineLength s.bufferSize (linesAt s i)).toNat,
   (linesAt s i).id⟩

/-- `ReadFirst` (header lines 263-272). -/
def ReadFirst (s : Buffer α) : Option (BufferLine α) :=
  if s.indexFirstLine < 0 then none else some (CreateBufferLine s s.indexFirstLine)

/-- `ReadLast` (header lines 276-285). -/
def ReadLast (s : Buffer α) : Option (BufferLine α) :=
  if s.indexLastLine < 0 then none else some (CreateBufferLine s s.indexLastLine)

/-- A freshly constructed buffer (header lines 130-142): marker slots are
value-initialised to `{0, 0, 0}`, both cursors are `-1`, the arena holds
whatever `arena0` the allocation happened to contain. -/
def fresh (cap ml : Nat) (arena0 : List α) : Buffer α :=
  ⟨arena0, List.replicate ml ⟨0, 0, 0⟩, cap, ml, -1, -1⟩

/-- Faithful `WriteLine` placement with every marker-array subscript of the
placement/split code (header lines 165-217) modelled as a checked access:
line 175 evaluates `lines[_indexLastLine].endIndex` before any
`_indexLastLine == -1` guard, so the very first write reads `lines[-1]`
and this model returns `none`. -/
def WriteLineChecked (s : Buffer α) (data : List α) (length : Nat) :
    Option (Nat × Buffer α) :=
  if length = 0 then some (0, s)
  else if length > s.bufferSize / 2 then some (0, s)
  else
    match linesAtChecked s s.indexLastLine with
    | none => none
    | some last =>
      let nextIndex := getNextIndex s.maxLines s.indexLastLine
      let placed : List α × Int :=
        if last.endIndex + length + 1 < (s.bufferSize : Int) then
          (memcpyAt s.buff
            (if s.indexLastLine = -1 then 0 else (last.endIndex + 1).toNat)
            (data.take length),
           (if s.indexLastLine = -1 then 0 else last.endIndex + 1) + length - 1)
        else
          (memcpyAt
            (memcpyAt s.buff
              (if s.indexLastLine = -1 then 0 else (last.endIndex + 1).toNat)
              (data.take ((s.bufferSize : Int) - last.endIndex - 1).toNat))
            0
            ((data.take length).drop ((s.bufferSize : Int) - last.endIndex - 1).toNat),
           (length : Int) - ((s.bufferSize : Int) - last.endIndex - 1) - 1)
      let newLine : BufferLineMarker :=
        if s.indexLastLine = -1 then ⟨0, placed.2, 0⟩
        else ⟨(last.endIndex + 1) % (s.bufferSize : Int), placed.2,
              (last.id + 1) % 2 ^ 32⟩
      if s.indexFirstLine = -1 then
        some (newLine.id,
          { s with buff := placed.1,
                   lines := s.lines.set nextIndex.toNat newLine,
                   indexFirstLine := nextIndex, indexLastLine := nextIndex })
      else
        match fixIntersection s.lines s.maxLines s.indexFirstLine newLine with
        | none => none
        | some f =>
          some (newLine.id,
            { s with buff := placed.1,
                     lines := s.lines.set nextIndex.toNat newLine,
                     indexFirstLine := f, indexLastLine := nextIndex })

/-- One public mutating call, for reachability traces. -/
inductive Op (α : Type) where
  | write (data : List α) (length : Nat)
  | append (id : Nat) (data : List α) (length : Nat)
  | appendChar (id : Nat) (data : List α) (length : Nat)

/-- Execute one call, discarding the returned id. -/
def execOp (s : Buffer α) : Op α → Option (Buffer α)
  | .write d n => (WriteLine s d n).map Prod.snd
  | .append i d n => (WriteToLastLine s i d n).map Prod.snd
  | .appendChar i d n => (WriteToLastLineChar s i d n).map Prod.snd

/-- Execute a sequence of calls; `none` as soon as one call diverges. -/
def exec (s : Buffer α) : List (Op α) → Option (Buffer α)
  | [] => some s
  | op :: ops => (execOp s op).bind (fun s2 => exec s2 ops)

/-- The indices of the active window, walking forward circularly from
`oldestIndex` to `newestIndex` inclusive (empty when the buffer is empty). -/
def windowIdx (s : Buffer α) : List Int :=
  if s.indexLastLine = -1 ∨ s.indexFirstLine = -1 then []
  else
    (List.range s.maxLines).map (fun k => (s.indexFirstLine + k) % (s.maxLines : Int))
      |>.takeWhile (fun i => decide (i ≠ s.indexLastLine))
      |>.concat s.indexLastLine

/-- Invariant I1: the markers of the active window are pairwise
non-overlapping under the spec section 4.2 test. -/
def specI1 (s : Buffer α) : Prop :=
  (windowIdx s).Pairwise (fun i j => specOverlaps (linesAt s i) (linesAt s j) = false)

instance (s : Buffer α) : Decidable (specI1 s) := by
  unfold specI1; infer_instance

/-- Well-formed states: the size bounds under which the `Int`/`Nat` model
agrees with the C integer semantics, array lengths matching the
configuration, cursors either `-1` or in range, and marker fields in the
ranges the source ever stores. -/
def WF (s : Buffer α) : Prop :=
  0 < s.bufferSize ∧ s.bufferSize ≤ 32767 ∧
  0 < s.maxLines ∧ s.maxLines ≤ 32767 ∧
  s.buff.length = s.bufferSize ∧ s.lines.length = s.maxLines ∧
  (s.indexLastLine = -1 ∨ (0 ≤ s.indexLastLine ∧ s.indexLastLine < (s.maxLines : Int))) ∧
  (s.indexFirstLine = -1 ∨ (0 ≤ s.indexFirstLine ∧ s.indexFirstLine < (s.maxLines : Int))) ∧
  (s.indexLastLine = -1 ↔ s.indexFirstLine = -1) ∧
  ∀ m ∈ s.lines, 0 ≤ m.startIndex ∧ m.startIndex < (s.bufferSize : Int) ∧
    -1 ≤ m.endIndex ∧ m.endIndex < (s.bufferSize : Int) ∧ m.id < 2 ^ 32

instance (s : Buffer α) [DecidableEq α] : Decidable (WF s) := by
  unfold WF; infer_instance

/-- The cursor part of well-formedness, which is preserved by every
operation without any bound on append lengths. -/
def WFcursors (s : Buffer α) : Prop :=
  0 < s.maxLines ∧ s.lines.length = s.maxLines ∧
  (s.indexLastLine = -1 ∨ (0 ≤ s.indexLastLine ∧ s.indexLastLine < (s.maxLines : Int))) ∧
  (s.indexFirstLine = -1 ∨ (0 ≤ s.indexFirstLine ∧ s.indexFirstLine < (s.maxLines : Int))) ∧
  (s.indexLastLine = -1 ↔ s.indexFirstLine = -1)

instance (s : Buffer α) : Decidable (WFcursors s) := by
  unfold WFcursors; infer_instance

/-- Id of the newest marker. -/
def newestId (s : Buffer α) : Nat := (linesAt s s.indexLastLine).id

/-- Execute a sequence of calls, also returning the list of returned ids
(oldest call first); `none` as soon as one call diverges. -/
def execR (s : Buffer α) : List (Op α) → Option (List Nat × Buffer α)
  | [] => some ([], s)
  | op :: ops =>
    match
      (match op with
       | .write d n => WriteLine s d n
       | .append i d n => WriteToLastLine s i d n
       | .appendChar i d n => WriteToLastLineChar s i d n) with
    | none => none
    | some (r, t) => (execR t ops).map (fun p => (r :: p.1, p.2))

/-- Does `op` pass the acceptance guards of `WriteLine` in state `s`? -/
def acceptedWrite (s : Buffer α) : Op α → Bool
  | .write _ n => !(decide (n = 0)) && !(decide (s.bufferSize / 2 < n))
  | _ => false

/-- Execute a sequence of calls, counting the writes that pass the
`WriteLine` guards. -/
def execN (s : Buffer α) : List (Op α) → Option (Nat × Buffer α)
  | [] => some (0, s)
  | op :: ops =>
    match execOp s op with
    | none => none
    | some t =>
      (execN t ops).map
        (fun p => ((if acceptedWrite s op then 1 else 0) + p.1, p.2))

/-- The overlap formula of claim C4 amended at degenerate markers: the code
decides contiguity with a strict comparison, so a marker with
`start = end` is handled by the final non-fragmented fallback
`A.start <= B.end OR A.end >= B.start` whenever neither marker is
fragmented; in every other configuration the code agrees with the spec
section 4.2 formula. -/
def amendedOverlaps (a b : BufferLineMarker) : Bool :=
  if (a.startIndex = a.endIndex ∨ b.startIndex = b.endIndex) ∧
      a.startIndex ≤ a.endIndex ∧ b.startIndex ≤ b.endIndex then
    a.startIndex ≤ b.endIndex ∨ a.endIndex ≥ b.startIndex
  else specOverlaps a b

/-- The placement offset of claim C3: 0 on an empty buffer, otherwise
`(newest.endCell + 1) mod capacity`. -/
def placementOffset (s : Buffer α) : Nat :=
  (if s.indexLastLine = -1 then 0
   else (prevEndOf s + 1) % (s.bufferSize : Int)).toNat

/-- Conclusion of the amended claim C3 for a successful
`writeRecord(data, L)` taking state `s` to state `t`: the new marker
starts at the placement offset `o`; its end cell is `o + L - 1` when
`o + L < capacity` and `L - (capacity - o) - 1` otherwise (which is `-1`
in the exact-fit case `o + L = capacity`); cell `(o + j) mod capacity`
holds `data[j]`; and all other cells are unchanged. -/
def placementSpec (s t : Buffer α) (data : List α) (L : Nat) : Prop :=
  (linesAt t t.indexLastLine).startIndex = (placementOffset s : Int) ∧
  (linesAt t t.indexLastLine).endIndex =
    (if placementOffset s + L < s.bufferSize then
      (placementOffset s : Int) + (L : Int) - 1
     else (L : Int) - ((s.bufferSize : Int) - (placementOffset s : Int)) - 1) ∧
  (∀ j : Nat, j < L →
    t.buff[(placementOffset s + j) % s.bufferSize]? = data[j]?) ∧
  (∀ c : Nat, c < s.bufferSize →
    (∀ j : Nat, j < L → c ≠ (placementOffset s + j) % s.bufferSize) →
    t.buff[c]? = s.buff[c]?)

instance (s t : Buffer α) (data : List α) (L : Nat) [DecidableEq α] :
    Decidable (placementSpec s t data L) := by
  unfold placementSpec; infer_instance

/-! ### Concrete inputs and states used by the claim theorems -/

/-- Zero-initialised 16-cell arena. -/
def arena16 : List Nat := List.replicate 16 0

/-- Fresh buffer, capacity 16, 4 marker slots. -/
def fresh16 : Buffer Nat := fresh 16 4 arena16

/-- Fresh buffer, capacity 8, 4 marker slots. -/
def fresh8 : Buffer Nat := fresh 8 4 (List.replicate 8 0)

/-- Fresh buffer, capacity 10, 4 marker slots. -/
def fresh10 : Buffer Nat := fresh 10 4 (List.replicate 10 0)

/-- The bytes of the string ABCDEFGH. -/
def dataABCDEFGH : List Nat := [65, 66, 67, 68, 69, 70, 71, 72]

/-- Call sequence violating invariant I1: four writes and one append on a
capacity-8, 4-slot buffer. -/
def c1ops : List (Op Nat) :=
  [.write [1, 2] 2, .write [3, 4, 5, 6] 4, .write [7, 8, 9, 10] 4,
   .write [11, 12, 13, 14] 4, .append 3 [15] 1]

/-- The state after `c1ops`: the append extended the newest marker to
`{2,6}`, the eviction loop ran past `indexLastLine` and stopped on the
stale slot 0, so the active window is all four slots. -/
def c1final : Buffer Nat :=
  ⟨[9, 10, 11, 12, 13, 14, 15, 8],
   [⟨0, 1, 0⟩, ⟨2, 5, 1⟩, ⟨6, 1, 2⟩, ⟨2, 6, 3⟩], 8, 4, 0, 3⟩

/-- State after writing one line of length 1 into `fresh16`. -/
def c8state : Buffer Nat :=
  ⟨[9, 0, 0, 0, 0, 0, 0, 0, 0, 0, 0, 0, 0, 0, 0, 0],
   List.replicate 4 ⟨0, 0, 0⟩, 16, 4, 0, 0⟩

/-- Twelve bytes appended in the C5 failing input. -/
def c5data : List Nat := [5, 6, 7, 8, 9, 10, 11, 12, 13, 14, 15, 16]

/-- C5 failing input: two 2-byte writes then a 12-byte append to line 1. -/
def c5ops : List (Op Nat) :=
  [.write [1, 2] 2, .write [3, 4] 2, .append 1 c5data 12]

/-- The state after `c5ops`: the retained newest line `{2,-1}` spans 14 of
the 16 cells. -/
def c5final : Buffer Nat :=
  ⟨[1, 2, 3, 4, 5, 6, 7, 8, 9, 10, 11, 12, 13, 14, 15, 16],
   [⟨0, 1, 0⟩, ⟨2, -1, 1⟩, ⟨0, 0, 0⟩, ⟨0, 0, 0⟩], 16, 4, 0, 1⟩

/-- State of the amended scenario B after the rejected 8-byte write and
the accepted 3-byte write on a capacity-10 buffer. -/
def c9state : Buffer Nat :=
  ⟨[88, 89, 90, 0, 0, 0, 0, 0, 0, 0],
   [⟨0, 2, 0⟩, ⟨0, 0, 0⟩, ⟨0, 0, 0⟩, ⟨0, 0, 0⟩], 10, 4, 0, 0⟩

/-- State after two 4-byte writes on a capacity-8, 2-slot buffer; the
second write is an exact fit (offset 4, length 4). -/
def c3final : Buffer Nat :=
  ⟨[1, 2, 3, 4, 5, 6, 7, 8], [⟨0, 3, 0⟩, ⟨4, -1, 1⟩], 8, 2, 0, 1⟩

/-- State after one 2-byte write on a fresh capacity-8, 2-slot buffer,
used by the C3 witness. -/
def c3w : Buffer Nat :=
  ⟨[1, 2, 0, 0, 0, 0, 0, 0], [⟨0, 1, 0⟩, ⟨0, 0, 0⟩], 8, 2, 0, 0⟩

/-- The 8-byte payload written repeatedly in the C7 counterexample. -/
def d8 : List Nat := [1, 2, 3, 4, 5, 6, 7, 8]

/-- Steady orbit after `n >= 2` writes of `d8` on a fresh capacity-16,
2-slot buffer: slot 0 holds extent `{0,7}`, slot 1 the exact-fit extent
`{8,-1}`; the newest slot and the two ids follow the parity of `n`, and
the ids wrap modulo `2 ^ 32`. -/
def orbit (n : Nat) : Buffer Nat :=
  if n % 2 = 0 then
    ⟨d8 ++ d8, [⟨0, 7, (n - 2) % 2 ^ 32⟩, ⟨8, -1, (n - 1) % 2 ^ 32⟩],
     16, 2, 0, 1⟩
  else
    ⟨d8 ++ d8, [⟨0, 7, (n - 1) % 2 ^ 32⟩, ⟨8, -1, (n - 2) % 2 ^ 32⟩],
     16, 2, 1, 0⟩

/-- `n` successive `WriteLine` calls of `d8` starting from the fresh
capacity-16, 2-slot buffer (each call returns an id that is discarded). -/
def iterW : Nat → Option (Buffer Nat)
  | 0 => some (fresh 16 2 (List.replicate 16 0))
  | n + 1 => (iterW n).bind (fun s => (WriteLine s d8 8).map Prod.snd)

/-- State after `WriteLine([1,2], 2)` on a fresh capacity-4, 2-slot
buffer, used by the C7 witness. -/
def c7w1 : Buffer Nat :=
  ⟨[1, 2, 0, 0], [⟨0, 1, 0⟩, ⟨0, 0, 0⟩], 4, 2, 0, 0⟩

/-- State after a further `WriteLine([3,4], 2)` (an exact fit), used by
the C7 witness. -/
def c7w2 : Buffer Nat :=
  ⟨[1, 2, 3, 4], [⟨0, 1, 0⟩, ⟨2, -1, 1⟩], 4, 2, 0, 1⟩

/-! ### Helper lemmas -/

/-- `memcpyAt` does not change the length of the arena. -/
theorem memcpyAt_length (b : List α) (i : Nat) (d : List α) :
    (memcpyAt b i d).length = b.length := by
  induction d generalizing b i with
  | nil => rfl
  | cons x xs ih => rw [memcpyAt, ih, List.length_set]

/-- Cells outside the copied range are unchanged by `memcpyAt`. -/
theorem memcpyAt_getElem_out (b : List α) (i : Nat) (d : List α) (j : Nat)
    (h : j < i ∨ i + d.length ≤ j) : (memcpyAt b i d)[j]? = b[j]? := by
  induction d generalizing b i with
  | nil => rfl
  | cons x xs ih =>
    have hlen : i + (x :: xs).length = i + 1 + xs.length := by
      simp only [List.length_cons]; omega
    have hne : i ≠ j := by omega
    rw [memcpyAt, ih (b.set i x) (i + 1) (by omega),
        List.getElem?_set_ne hne]

/-- Cells inside the copied range hold the copied data. -/
theorem memcpyAt_getElem_in (b : List α) (i : Nat) (d : List α) (j : Nat)
    (hj : j < d.length) (hfit : i + j < b.length) :
    (memcpyAt b i d)[i + j]? = d[j]? := by
  induction d generalizing b i j with
  | nil => simp at hj
  | cons x xs ih =>
    rcases Nat.eq_zero_or_pos j with rfl | hj0
    · rw [memcpyAt, memcpyAt_getElem_out _ _ _ _ (Or.inl (by omega))]
      simp only [Nat.add_zero]
      rw [List.getElem?_set_eq_of_lt x (by omega), List.getElem?_cons_zero]
    · obtain ⟨k, rfl⟩ : ∃ k, j = k + 1 := ⟨j - 1, by omega⟩
      have hk : k < xs.length := by
        simp only [List.length_cons] at hj; omega
      rw [memcpyAt, show i + (k + 1) = (i + 1) + k by omega,
          ih (b.set i x) (i + 1) k hk (by rw [List.length_set]; omega),
          List.getElem?_cons_succ]

/-- `getD` after `set` at the same in-range index returns the new value. -/
theorem getD_set_self (l : List β) (k : Nat) (x d : β) (h : k < l.length) :
    (l.set k x).getD k d = x := by
  rw [List.getD_eq_getElem?_getD, List.getElem?_set_eq_of_lt x h]
  rfl

/-- An in-range `linesAt` is a member of the marker list. -/
theorem linesAt_mem (s : Buffer α) (i : Int)
    (h1 : i.toNat < s.lines.length) : linesAt s i ∈ s.lines := by
  unfold linesAt
  rw [List.getD_eq_getElem?_getD, List.getElem?_eq_getElem h1]
  exact List.getElem_mem h1

/-- Shape of a successful `WriteLine` once both guards have passed: the
returned id is the new marker's id and the new state is the old one with
the copied arena, the marker stored at `getNextIndex` and `indexLastLine`
moved there. -/
theorem WriteLine_success (s : Buffer α) (data : List α) (L : Nat) (r : Nat)
    (t : Buffer α) (h0 : ¬ L = 0) (h1 : ¬ L > s.bufferSize / 2)
    (hsucc : WriteLine s data L = some (r, t)) :
    r = (newMarkerOf s L).id ∧
    t.buff = placedBuff s data L ∧
    t.lines = s.lines.set (getNextIndex s.maxLines s.indexLastLine).toNat
      (newMarkerOf s L) ∧
    t.bufferSize = s.bufferSize ∧ t.maxLines = s.maxLines ∧
    t.indexLastLine = getNextIndex s.maxLines s.indexLastLine ∧
    ((s.indexFirstLine = -1 ∧
        t.indexFirstLine = getNextIndex s.maxLines s.indexLastLine) ∨
      (¬ s.indexFirstLine = -1 ∧
        fixIntersection s.lines s.maxLines s.indexFirstLine (newMarkerOf s L) =
          some t.indexFirstLine)) := by
  rw [WriteLine, if_neg h0, if_neg h1] at hsucc
  simp only at hsucc
  by_cases hf : s.indexFirstLine = -1
  · rw [if_pos hf] at hsucc
    injection hsucc with h
    rw [Prod.mk.injEq] at h
    obtain ⟨hr, ht⟩ := h
    exact ⟨hr.symm, by rw [← ht], by rw [← ht], by rw [← ht], by rw [← ht],
      by rw [← ht], Or.inl ⟨hf, by rw [← ht]⟩⟩
  · rw [if_neg hf] at hsucc
    rcases hfix : fixIntersection s.lines s.maxLines s.indexFirstLine
        (newMarkerOf s L) with _ | f
    · rw [hfix] at hsucc; exact absurd hsucc (by simp)
    · rw [hfix] at hsucc
      injection hsucc with h
      rw [Prod.mk.injEq] at h
      obtain ⟨hr, ht⟩ := h
      exact ⟨hr.symm, by rw [← ht], by rw [← ht], by rw [← ht], by rw [← ht],
        by rw [← ht], Or.inr ⟨hf, by rw [← ht]⟩⟩

/-- Cell-level description of one non-wrapping copy of `data` at offset
`o`: cells `(o + j) mod cap` receive `data[j]`, everything else is kept. -/
theorem single_copy_cells (b data : List α) (o cap L : Nat)
    (hb : b.length = cap) (hdata : data.length = L) (hfit : o + L ≤ cap) :
    (∀ j : Nat, j < L → (memcpyAt b o data)[(o + j) % cap]? = data[j]?) ∧
    (∀ c : Nat, c < cap → (∀ j : Nat, j < L → c ≠ (o + j) % cap) →
      (memcpyAt b o data)[c]? = b[c]?) := by
  constructor
  · intro j hj
    rw [Nat.mod_eq_of_lt (by omega)]
    exact memcpyAt_getElem_in b o data j (by omega) (by omega)
  · intro c hc hcj
    refine memcpyAt_getElem_out b o data c ?_
    by_contra hcon
    push_neg at hcon
    obtain ⟨h1, h2⟩ := hcon
    exact hcj (c - o) (by omega) (by rw [Nat.mod_eq_of_lt (by omega)]; omega)

/-- Cell-level description of a split copy: the first `cap - o` cells of
`data` go to `[o, cap-1]`, the rest to the front; cells `(o + j) mod cap`
receive `data[j]`, everything else is kept. -/
theorem split_copy_cells (b data : List α) (o cap L : Nat)
    (hb : b.length = cap) (hdata : data.length = L)
    (hsplit : cap ≤ o + L) (ho : o < cap) (hLc : L ≤ cap) :
    (∀ j : Nat, j < L →
      (memcpyAt (memcpyAt b o (data.take (cap - o))) 0
        (data.drop (cap - o)))[(o + j) % cap]? = data[j]?) ∧
    (∀ c : Nat, c < cap → (∀ j : Nat, j < L → c ≠ (o + j) % cap) →
      (memcpyAt (memcpyAt b o (data.take (cap - o))) 0
        (data.drop (cap - o)))[c]? = b[c]?) := by
  have hlen1 : (data.take (cap - o)).length = cap - o := by
    rw [List.length_take]; omega
  have hlen2 : (data.drop (cap - o)).length = L - (cap - o) := by
    rw [List.length_drop]; omega
  have hblen : (memcpyAt b o (data.take (cap - o))).length = cap := by
    rw [memcpyAt_length, hb]
  constructor
  · intro j hj
    by_cases hj1 : j < cap - o
    · rw [Nat.mod_eq_of_lt (by omega),
          memcpyAt_getElem_out _ _ _ _ (Or.inr (by rw [hlen2]; omega)),
          memcpyAt_getElem_in b o _ j (by rw [hlen1]; omega) (by omega)]
      exact List.getElem?_take_of_lt hj1
    · have hmod : (o + j) % cap = j - (cap - o) := by
        rw [Nat.mod_eq_sub_mod (by omega), Nat.mod_eq_of_lt (by omega)]
        omega
      rw [hmod, show j - (cap - o) = 0 + (j - (cap - o)) by omega,
          memcpyAt_getElem_in _ 0 _ _ (by rw [hlen2]; omega)
            (by rw [hblen]; omega),
          List.getElem?_drop]
      congr 1
      omega
  · intro c hc hcj
    have hc1 : L - (cap - o) ≤ c := by
      by_contra hcon
      push_neg at hcon
      refine hcj (c + (cap - o)) (by omega) ?_
      rw [Nat.mod_eq_sub_mod (by omega), Nat.mod_eq_of_lt (by omega)]
      omega
    have hc2 : c < o := by
      by_contra hcon
      push_neg at hcon
      exact hcj (c - o) (by omega) (by rw [Nat.mod_eq_of_lt (by omega)]; omega)
    rw [memcpyAt_getElem_out _ _ _ _ (Or.inr (by rw [hlen2]; omega)),
        memcpyAt_getElem_out _ _ _ _ (Or.inl hc2)]

/-- If every marker slot of the ring intersects `nl`, the eviction loop
never exits, whatever the iteration budget. -/
theorem fixGo_none_of_all (lines : List BufferLineMarker) (ml : Nat)
    (nl : BufferLineMarker) (hml : 0 < ml)
    (h : ∀ i : Int, 0 ≤ i → i < (ml : Int) →
      inIntersection (lines.getD i.toNat ⟨0, 0, 0⟩) nl = true) :
    ∀ fuel (first : Int), 0 ≤ first → first < (ml : Int) →
      fixGo lines ml fuel first nl = none := by
  intro fuel
  induction fuel with
  | zero => intro first _ _; rfl
  | succ n ih =>
    intro first h1 h2
    rw [fixGo, h first h1 h2]
    simp only [if_pos]
    exact ih _ (Int.emod_nonneg _ (by omega)) (Int.emod_lt_of_pos _ (by omega))

/-- The eviction loop keeps `_indexFirstLine` inside `[0, maxLines)`. -/
theorem fixGo_some_bounds (lines : List BufferLineMarker) (ml : Nat)
    (hml : 0 < ml) :
    ∀ fuel (first : Int) nl f, fixGo lines ml fuel first nl = some f →
      0 ≤ first → first < (ml : Int) → 0 ≤ f ∧ f < (ml : Int) := by
  intro fuel
  induction fuel with
  | zero => intro first nl f h _ _; exact absurd h (by rw [fixGo]; simp)
  | succ n ih =>
    intro first nl f h h0 h1
    rw [fixGo] at h
    split_ifs at h with hins
    · exact ih _ nl f h (Int.emod_nonneg _ (by omega))
        (Int.emod_lt_of_pos _ (by omega))
    · injection h with h
      subst h
      exact ⟨h0, h1⟩

/-- Shape of a `WriteToLastLine` tail call that returns: the newest index
is unchanged and now carries the extended marker `m2`, and the new
`_indexFirstLine` is in range. -/
theorem appendFinish_shape (s : Buffer α) (b2 : List α)
    (m2 : BufferLineMarker) (id : Nat) (t : Buffer α)
    (hWFc : WFcursors s) (hne : s.indexLastLine ≠ -1)
    (h : (appendFinish s b2 m2 id).map Prod.snd = some t) :
    WFcursors t ∧ t.indexLastLine = s.indexLastLine ∧ newestId t = m2.id := by
  obtain ⟨hml, hlines, hlast, hfirst, hiff⟩ := hWFc
  rcases hlast with hlast | hlast
  · exact absurd hlast hne
  have hfne : s.indexFirstLine ≠ -1 := fun hcon => hne (hiff.mpr hcon)
  rcases hfirst with hfirst | hfirst
  · exact absurd hfirst hfne
  simp only [appendFinish] at h
  rcases hfix : fixIntersection (s.lines.set s.indexLastLine.toNat m2)
      s.maxLines s.indexFirstLine m2 with _ | f
  · rw [hfix] at h; exact absurd h (by simp)
  · rw [hfix] at h
    simp only [Option.map_some', Option.some.injEq] at h
    obtain ⟨hf0, hf1⟩ := fixGo_some_bounds _ s.maxLines hml _ _ _ _ hfix
      hfirst.1 hfirst.2
    subst h
    refine ⟨⟨hml, ?_, Or.inr hlast, Or.inr ⟨hf0, hf1⟩, ?_⟩, rfl, ?_⟩
    · show (s.lines.set s.indexLastLine.toNat m2).length = s.maxLines
      rw [List.length_set]
      exact hlines
    · show s.indexLastLine = -1 ↔ f = -1
      constructor
      · intro hcon; exact absurd hcon hne
      · intro hcon; omega
    · show ((s.lines.set s.indexLastLine.toNat m2).getD
          s.indexLastLine.toNat ⟨0, 0, 0⟩).id = m2.id
      rw [getD_set_self _ _ _ _ (by omega)]

/-- A write accepted by the guards that returns makes `k` the id of the
newest marker and keeps the cursors well formed. -/
theorem WriteLine_accepted (s : Buffer α) (d : List α) (L k : Nat)
    (t : Buffer α) (hWFc : WFcursors s) (h0 : ¬ L = 0)
    (h1 : ¬ L > s.bufferSize / 2) (hw : WriteLine s d L = some (k, t)) :
    WFcursors t ∧ t.indexLastLine ≠ -1 ∧ newestId t = k ∧ k < 2 ^ 32 := by
  obtain ⟨hml, hlines, hlast, hfirst, hiff⟩ := hWFc
  obtain ⟨hr, -, htl, -, htm, hti, hfi⟩ :=
    WriteLine_success s d L k t h0 h1 hw
  have hniB : 0 ≤ getNextIndex s.maxLines s.indexLastLine ∧
      getNextIndex s.maxLines s.indexLastLine < (s.maxLines : Int) := by
    unfold getNextIndex
    exact ⟨Int.emod_nonneg _ (by omega), Int.emod_lt_of_pos _ (by omega)⟩
  have hniLt : (getNextIndex s.maxLines s.indexLastLine).toNat <
      s.lines.length := by
    obtain ⟨hn1, hn2⟩ := hniB
    omega
  have hnewest : newestId t = (newMarkerOf s L).id := by
    unfold newestId linesAt
    rw [hti, htl, getD_set_self _ _ _ _ hniLt]
  have hfiB : 0 ≤ t.indexFirstLine ∧ t.indexFirstLine < (s.maxLines : Int) := by
    rcases hfi with ⟨-, hf⟩ | ⟨hfe, hf⟩
    · rw [hf]; exact hniB
    · rcases hfirst with hc | hc
      · exact absurd hc hfe
      · exact fixGo_some_bounds _ s.maxLines hml _ _ _ _ hf hc.1 hc.2
  have hkid : k = (newMarkerOf s L).id := hr
  have hklt : (newMarkerOf s L).id < 2 ^ 32 := by
    show (if s.indexLastLine = -1 then 0
      else ((linesAt s s.indexLastLine).id + 1) % 2 ^ 32) < 2 ^ 32
    split_ifs
    · norm_num
    · exact Nat.mod_lt _ (by norm_num)
  refine ⟨⟨?_, ?_, ?_, ?_, ?_⟩, ?_, ?_, ?_⟩
  · rw [htm]; exact hml
  · rw [htl, List.length_set, htm]; exact hlines
  · rw [hti, htm]; exact Or.inr hniB
  · rw [htm]; exact Or.inr hfiB
  · constructor
    · intro hcon; rw [hti] at hcon; omega
    · intro hcon; omega
  · rw [hti]; omega
  · rw [hnewest, hkid]
  · rw [hkid]; exact hklt

/-- Effect of one public call on the newest id: an accepted write bumps it
by one modulo `2 ^ 32`, everything else keeps it; cursors stay
well-formed and the buffer stays non-empty. -/
theorem execOp_newestId (s : Buffer α) (op : Op α) (t : Buffer α)
    (hWFc : WFcursors s) (hne : s.indexLastLine ≠ -1)
    (hid : newestId s < 2 ^ 32) (h : execOp s op = some t) :
    WFcursors t ∧ t.indexLastLine ≠ -1 ∧
    newestId t = (if acceptedWrite s op then (newestId s + 1) % 2 ^ 32
                  else newestId s) ∧
    newestId t < 2 ^ 32 := by
  rcases op with ⟨d, n⟩ | ⟨i, d, n⟩ | ⟨i, d, n⟩
  · -- WriteLine
    simp only [execOp] at h
    by_cases h0 : n = 0
    · rw [WriteLine, if_pos h0] at h
      simp only [Option.map_some', Option.some.injEq] at h
      subst h
      simp only [acceptedWrite, h0]
      refine ⟨hWFc, hne, by norm_num, hid⟩
    by_cases h1 : n > s.bufferSize / 2
    · rw [WriteLine, if_neg h0, if_pos h1] at h
      simp only [Option.map_some', Option.some.injEq] at h
      subst h
      have hacc : acceptedWrite s (Op.write d n) = false := by
        have h2 : s.bufferSize / 2 < n := h1
        show (!(decide (n = 0)) && !(decide (s.bufferSize / 2 < n))) = false
        rw [decide_eq_true h2]
        simp
      rw [hacc]
      exact ⟨hWFc, hne, by norm_num, hid⟩
    · rcases hw : WriteLine s d n with _ | p
      · rw [hw] at h; exact absurd h (by simp)
      · rw [hw] at h
        simp only [Option.map_some', Option.some.injEq] at h
        obtain ⟨hWFt, hnet, hnw, hklt⟩ :=
          WriteLine_accepted s d n p.1 p.2 hWFc h0 h1 (by rw [hw])
        obtain ⟨hr, -, -, -, -, -, -⟩ :=
          WriteLine_success s d n p.1 p.2 h0 h1 (by rw [hw])
        have hacc : acceptedWrite s (Op.write d n) = true := by
          simp only [acceptedWrite, Bool.and_eq_true, Bool.not_eq_eq_eq_not,
            Bool.not_true, decide_eq_false_iff_not]
          exact ⟨h0, h1⟩
        have hidn : (newMarkerOf s n).id = (newestId s + 1) % 2 ^ 32 := by
          show (if s.indexLastLine = -1 then 0
            else ((linesAt s s.indexLastLine).id + 1) % 2 ^ 32) = _
          rw [if_neg hne]
          rfl
        subst h
        rw [hacc, if_pos rfl]
        exact ⟨hWFt, hnet, by rw [hnw, hr, hidn], by rw [hnw]; exact hklt⟩
  · -- generic WriteToLastLine
    simp only [execOp] at h
    simp only [WriteToLastLine] at h
    have hacc : acceptedWrite s (Op.append i d n) = false := rfl
    rw [hacc, if_neg (by simp)]
    split_ifs at h with hg hb
    · simp only [Option.map_some', Option.some.injEq] at h
      subst h
      exact ⟨hWFc, hne, rfl, hid⟩
    · obtain ⟨hwf, hlt, hnid⟩ := appendFinish_shape s _ _ i t hWFc hne h
      exact ⟨hwf, by omega, hnid, by rw [hnid]; exact hid⟩
    · obtain ⟨hwf, hlt, hnid⟩ := appendFinish_shape s _ _ i t hWFc hne h
      exact ⟨hwf, by omega, hnid, by rw [hnid]; exact hid⟩
  · -- char WriteToLastLine
    simp only [execOp] at h
    simp only [WriteToLastLineChar] at h
    have hacc : acceptedWrite s (Op.appendChar i d n) = false := rfl
    rw [hacc, if_neg (by simp)]
    split_ifs at h with hg hb
    · simp only [Option.map_some', Option.some.injEq] at h
      subst h
      exact ⟨hWFc, hne, rfl, hid⟩
    · obtain ⟨hwf, hlt, hnid⟩ := appendFinish_shape s _ _ i t hWFc hne h
      exact ⟨hwf, by omega, hnid, by rw [hnid]; exact hid⟩
    · obtain ⟨hwf, hlt, hnid⟩ := appendFinish_shape s _ _ i t hWFc hne h
      exact ⟨hwf, by omega, hnid, by rw [hnid]; exact hid⟩

/-- Over a whole trace, the newest id advances by exactly the number of
accepted writes, modulo `2 ^ 32`. -/
theorem execN_newestId (ops : List (Op α)) :
    ∀ (s : Buffer α) (c : Nat) (t : Buffer α), WFcursors s →
      s.indexLastLine ≠ -1 → newestId s < 2 ^ 32 →
      execN s ops = some (c, t) →
      WFcursors t ∧ t.indexLastLine ≠ -1 ∧
      newestId t = (newestId s + c) % 2 ^ 32 := by
  induction ops with
  | nil =>
    intro s c t hWFc hne hid h
    simp only [execN, Option.some.injEq] at h
    rw [Prod.mk.injEq] at h
    obtain ⟨hc, ht⟩ := h
    subst ht
    refine ⟨hWFc, hne, ?_⟩
    omega
  | cons op ops ih =>
    intro s c t hWFc hne hid h
    simp only [execN] at h
    rcases hop : execOp s op with _ | u
    · rw [hop] at h; exact absurd h (by simp)
    · rw [hop] at h
      dsimp only at h
      rcases hrec : execN u ops with _ | p
      · rw [hrec] at h; exact absurd h (by simp)
      · rw [hrec] at h
        simp only [Option.map_some', Option.some.injEq] at h
        rw [Prod.mk.injEq] at h
        obtain ⟨hc, ht⟩ := h
        obtain ⟨hWFu, hneu, hidu, hidu2⟩ :=
          execOp_newestId s op u hWFc hne hid hop
        obtain ⟨hWFt, hnet, hidt⟩ := ih u p.1 p.2 hWFu hneu hidu2 (by rw [hrec])
        subst ht
        refine ⟨hWFt, hnet, ?_⟩
        rcases hv : acceptedWrite s op with _ | _
        · rw [hv, if_neg (by simp)] at hidu
          rw [hv] at hc
          simp only [if_neg (by simp : ¬ (false = true))] at hc
          rw [hidt, hidu]
          omega
        · rw [hv, if_pos rfl] at hidu
          rw [hv] at hc
          simp at hc
          rw [hidt, hidu]
          omega

/-- Steady-state write, even phase: the newest record is the exact-fit
extent in slot 1, so the next write is placed contiguously at offset 0
over slot 0, and the eviction walk stops after evicting slot 0. -/
theorem writeLine_orbit_even (x y : Nat) :
    WriteLine (⟨d8 ++ d8, [⟨0, 7, x⟩, ⟨8, -1, y⟩], 16, 2, 0, 1⟩ : Buffer Nat)
      d8 8 =
    some ((y + 1) % 2 ^ 32,
      ⟨d8 ++ d8, [⟨0, 7, (y + 1) % 2 ^ 32⟩, ⟨8, -1, y⟩], 16, 2, 1, 0⟩) := by
  with_unfolding_all rfl

/-- Steady-state write, odd phase: the newest record is the contiguous
extent in slot 0, so the next write is an exact-fit split at offset 8
stored in slot 1 with `endIndex = -1`. -/
theorem writeLine_orbit_odd (x y : Nat) :
    WriteLine (⟨d8 ++ d8, [⟨0, 7, x⟩, ⟨8, -1, y⟩], 16, 2, 1, 0⟩ : Buffer Nat)
      d8 8 =
    some ((x + 1) % 2 ^ 32,
      ⟨d8 ++ d8, [⟨0, 7, x⟩, ⟨8, -1, (x + 1) % 2 ^ 32⟩], 16, 2, 0, 1⟩) := by
  with_unfolding_all rfl

/-- From `orbit n` (`n >= 2`) one further write of `d8` returns the id
`n % 2 ^ 32` and moves the buffer to `orbit (n + 1)`. -/
theorem orbit_step (n : Nat) (h2 : 2 ≤ n) :
    WriteLine (orbit n) d8 8 = some (n % 2 ^ 32, orbit (n + 1)) := by
  have hid : ((n - 1) % 2 ^ 32 + 1) % 2 ^ 32 = n % 2 ^ 32 := by omega
  have e1 : n + 1 - 1 = n := by omega
  have e2 : n + 1 - 2 = n - 1 := by omega
  rcases Nat.even_or_odd n with he | ho
  · have hn : n % 2 = 0 := Nat.even_iff.mp he
    simp only [orbit]
    rw [if_pos hn, if_neg (by omega : ¬ (n + 1) % 2 = 0)]
    rw [writeLine_orbit_even ((n - 2) % 2 ^ 32) ((n - 1) % 2 ^ 32)]
    rw [e1, e2, hid]
  · have hn : n % 2 = 1 := Nat.odd_iff.mp ho
    simp only [orbit]
    rw [if_neg (by omega : ¬ n % 2 = 0), if_pos (by omega : (n + 1) % 2 = 0)]
    rw [writeLine_orbit_odd ((n - 1) % 2 ^ 32) ((n - 2) % 2 ^ 32)]
    rw [e1, e2, hid]

/-- The buffer reached after `2 + m` successive writes of `d8` from the
fresh capacity-16, 2-slot buffer is exactly `orbit (2 + m)`. -/
theorem iterW_orbit (m : Nat) : iterW (2 + m) = some (orbit (2 + m)) := by
  induction m with
  | zero => with_unfolding_all rfl
  | succ k ih =>
    show iterW (2 + k + 1) = some (orbit (2 + k + 1))
    rw [iterW, ih]
    show (WriteLine (orbit (2 + k)) d8 8).map Prod.snd =
      some (orbit (2 + k + 1))
    rw [orbit_step (2 + k) (by omega)]
    rfl

/-! ### Claim theorems -/

/-- C1: the claim states that in every state reachable by writeRecord and
appendToNewest calls no two distinct active-window markers overlap under
the spec section 4.2 test.  The code violates it: after writes of lengths
2, 4, 4, 4 and a 1-byte append on a capacity-8, 4-slot buffer (all five
calls terminate and succeed), the window spans all four slots and the
stale marker `{2,5}` (id 1) overlaps the newest marker `{2,6}` (id 3). -/
theorem c1_no_overlap_invariant_violated :
    execR fresh8 c1ops = some ([0, 1, 2, 3, 3], c1final) ∧
    c1final.indexFirstLine = 0 ∧ c1final.indexLastLine = 3 ∧
    specOverlaps (linesAt c1final 1) (linesAt c1final 3) = true ∧
    ¬ specI1 c1final :=
  ⟨rfl, rfl, rfl, by decide, by decide⟩

/-- C2: the claim states that a successful `writeRecord(data, n)` followed
by `readNewest()` yields the same `n` bytes, length `n` and the returned
id.  It fails at `n = 1`: a length-1 record has `startIndex = endIndex`,
which `calculateLineLength`/`AllocLineData` treat as fragmented, so the
snapshot has length `capacity + 1 = 17` and junk content. -/
theorem c2_roundtrip_length1_broken :
    (execR fresh16 [.write [7] 1]).map (fun p => (p.1, ReadLast p.2)) =
      some ([0],
        some ⟨[7, 0, 0, 0, 0, 0, 0, 0, 0, 0, 0, 0, 0, 0, 0, 0, 7], 17, 0⟩) ∧
    (17 : Nat) ≠ 1 :=
  ⟨rfl, by decide⟩

/-- C3 counterexample: with capacity 8, offset 4 and length 4 the claim
(`offset + L <= capacity` contiguous) demands the marker `[4,7]`, but the
code takes the split branch at equality and stores `endCell = -1`. -/
theorem c3_exact_fit_boundary :
    execR (fresh 8 2 (List.replicate 8 0))
        [.write [1, 2, 3, 4] 4, .write [5, 6, 7, 8] 4] =
      some ([0, 1], c3final) ∧
    linesAt c3final c3final.indexLastLine = ⟨4, -1, 1⟩ ∧ (-1 : Int) ≠ 7 :=
  ⟨rfl, rfl, by decide⟩

/-- C3 amended: for every successful `writeRecord(data, L)` from a
well-formed state, the placement is exactly `placementSpec`: the marker
starts at `o = (newest.endCell + 1) mod capacity` (0 when empty), the
contiguous branch requires `o + L < capacity` strictly (at
`o + L = capacity` the split branch runs with an empty second copy and
stores `endCell = remainder - 1 = -1`), cell `(o + j) mod capacity`
receives `data[j]` and every other cell is unchanged. -/
theorem c3_amended_placement (s : Buffer α) (data : List α) (L : Nat)
    (hWF : WF s) (hL : 0 < L) (hhalf : L ≤ s.bufferSize / 2)
    (hdata : data.length = L) (r : Nat) (t : Buffer α)
    (hsucc : WriteLine s data L = some (r, t)) :
    placementSpec s t data L := by
  obtain ⟨hcap, -, hml, -, hbuf, hlines, hlast, -, -, hmarks⟩ := hWF
  obtain ⟨-, htb, htl, -, -, hti, -⟩ :=
    WriteLine_success s data L r t (by omega) (by omega) hsucc
  have htake : data.take L = data := by rw [← hdata]; exact List.take_length data
  have hLcap : L < s.bufferSize := by omega
  have hpe : -1 ≤ prevEndOf s ∧ prevEndOf s < (s.bufferSize : Int) := by
    unfold prevEndOf
    split_ifs with he
    · omega
    · rcases hlast with h | ⟨h0, h1⟩
      · exact absurd h he
      · have hm := hmarks _ (linesAt_mem s s.indexLastLine (by omega))
        exact ⟨hm.2.2.1, hm.2.2.2.1⟩
  have hniLt : (getNextIndex s.maxLines s.indexLastLine).toNat < s.lines.length := by
    have h1 := Int.emod_nonneg (s.indexLastLine + 1)
      (show (s.maxLines : Int) ≠ 0 by omega)
    have h2 := Int.emod_lt_of_pos (s.indexLastLine + 1)
      (show (0 : Int) < s.maxLines by exact_mod_cast hml)
    unfold getNextIndex
    omega
  have hmarker : linesAt t t.indexLastLine = newMarkerOf s L := by
    rw [hti]
    unfold linesAt
    rw [htl]
    exact getD_set_self _ _ _ _ hniLt
  unfold placementSpec
  rw [hmarker, htb]
  by_cases he : s.indexLastLine = -1
  · -- empty buffer: offset 0, always the contiguous branch
    have hpeE : prevEndOf s = -1 := by unfold prevEndOf; rw [if_pos he]
    have hoE : placementOffset s = 0 := by
      unfold placementOffset
      rw [if_pos he]
      rfl
    have hbb : placedBuff s data L = memcpyAt s.buff 0 data := by
      unfold placedBuff
      rw [hpeE, htake, if_pos (by omega)]
      norm_num
    obtain ⟨h3, h4⟩ :=
      single_copy_cells s.buff data 0 s.bufferSize L hbuf hdata (by omega)
    refine ⟨?_, ?_, ?_, ?_⟩
    · simp only [newMarkerOf]
      rw [if_pos he, hoE]
      rfl
    · simp only [newMarkerOf, placedEnd]
      rw [hpeE, hoE, if_pos (by omega), if_pos (by omega)]
      push_cast
      omega
    · intro j hj
      rw [hbb, hoE]
      exact h3 j hj
    · intro c hc hcj
      rw [hoE] at hcj
      rw [hbb]
      exact h4 c hc hcj
  · by_cases hwrap : prevEndOf s + 1 < (s.bufferSize : Int)
    · -- offset is prevEnd + 1 with no reduction
      have hoE : (placementOffset s : Int) = prevEndOf s + 1 := by
        unfold placementOffset
        rw [if_neg he, Int.emod_eq_of_lt (by omega) hwrap,
            Int.toNat_of_nonneg (by omega)]
      have hoN : placementOffset s = (prevEndOf s + 1).toNat := by omega
      have hstart : (newMarkerOf s L).startIndex = (placementOffset s : Int) := by
        simp only [newMarkerOf]
        rw [if_neg he, Int.emod_eq_of_lt (by omega) hwrap, hoE]
      by_cases hc : prevEndOf s + L + 1 < (s.bufferSize : Int)
      · -- contiguous branch
        have hbb : placedBuff s data L = memcpyAt s.buff (placementOffset s) data := by
          unfold placedBuff
          rw [if_pos hc, htake, hoN]
        obtain ⟨h3, h4⟩ :=
          single_copy_cells s.buff data (placementOffset s) s.bufferSize L
            hbuf hdata (by omega)
        refine ⟨hstart, ?_, ?_, ?_⟩
        · simp only [newMarkerOf, placedEnd]
          rw [if_pos hc, if_pos (by omega)]
          omega
        · intro j hj
          rw [hbb]
          exact h3 j hj
        · intro c hcc hcj
          rw [hbb]
          exact h4 c hcc hcj
      · -- genuine split branch
        have he1 : ((s.bufferSize : Int) - prevEndOf s - 1).toNat =
            s.bufferSize - placementOffset s := by omega
        have hbb : placedBuff s data L =
            memcpyAt (memcpyAt s.buff (placementOffset s)
              (data.take (s.bufferSize - placementOffset s))) 0
              (data.drop (s.bufferSize - placementOffset s)) := by
          unfold placedBuff
          rw [if_neg hc, htake, he1, hoN]
        obtain ⟨h3, h4⟩ :=
          split_copy_cells s.buff data (placementOffset s) s.bufferSize L
            hbuf hdata (by omega) (by omega) (by omega)
        refine ⟨hstart, ?_, ?_, ?_⟩
        · simp only [newMarkerOf, placedEnd]
          rw [if_neg hc, if_neg (by omega)]
          omega
        · intro j hj
          rw [hbb]
          exact h3 j hj
        · intro c hcc hcj
          rw [hbb]
          exact h4 c hcc hcj
    · -- previous record ends at the last cell: offset reduces to 0 and the
      -- split branch runs with an empty first copy
      have hpeC : prevEndOf s + 1 = (s.bufferSize : Int) := by omega
      have hoE : placementOffset s = 0 := by
        unfold placementOffset
        rw [if_neg he, hpeC, Int.emod_self]
        rfl
      have hcF : ¬ prevEndOf s + L + 1 < (s.bufferSize : Int) := by omega
      have hbb : placedBuff s data L = memcpyAt s.buff 0 data := by
        unfold placedBuff
        rw [if_neg hcF, htake,
            show ((s.bufferSize : Int) - prevEndOf s - 1).toNat = 0 by omega]
        simp only [List.take_zero, List.drop_zero]
        rw [show memcpyAt s.buff (prevEndOf s + 1).toNat ([] : List α) =
              s.buff from rfl]
      obtain ⟨h3, h4⟩ :=
        single_copy_cells s.buff data 0 s.bufferSize L hbuf hdata (by omega)
      refine ⟨?_, ?_, ?_, ?_⟩
      · simp only [newMarkerOf]
        rw [if_neg he, hpeC, Int.emod_self, hoE]
        rfl
      · simp only [newMarkerOf, placedEnd]
        rw [if_neg hcF, hoE, if_pos (by omega)]
        push_cast
        omega
      · intro j hj
        rw [hbb, hoE]
        exact h3 j hj
      · intro c hcc hcj
        rw [hoE] at hcj
        rw [hbb]
        exact h4 c hcc hcj

/-- Witness for C3 at a concrete input: the first write of two bytes on a
fresh capacity-8, 2-slot buffer. -/
theorem c3_amended_placement_witness :
    (WF (fresh 8 2 (List.replicate 8 (0 : Nat))) ∧ (0 : Nat) < 2 ∧
      2 ≤ 8 / 2 ∧ ([1, 2] : List Nat).length = 2 ∧
      WriteLine (fresh 8 2 (List.replicate 8 (0 : Nat))) [1, 2] 2 =
        some (0, c3w)) ∧
    placementSpec (fresh 8 2 (List.replicate 8 (0 : Nat))) c3w [1, 2] 2 :=
  ⟨⟨by decide, by decide, by decide, rfl, rfl⟩,
   c3_amended_placement (fresh 8 2 (List.replicate 8 (0 : Nat))) [1, 2] 2
     (by decide) (by decide) (by decide) rfl 0 c3w rfl⟩

/-- C4 counterexample: for `A = {2,2}` (a length-1 extent) and
`B = {0,1}` the code test returns true while the claimed spec section 4.2
formula returns false, so `inIntersection` is not the claimed formula. -/
theorem c4_formula_mismatch :
    inIntersection ⟨2, 2, 0⟩ ⟨0, 1, 0⟩ = true ∧
    specOverlaps ⟨2, 2, 0⟩ ⟨0, 1, 0⟩ = false := by decide

/-- C4 amended: the code decides contiguity strictly (`start < end`), so
degenerate markers (`start = end`) that are not fragmented are decided by
the fallback `A.start <= B.end OR A.end >= B.start`; in all other cases
`inIntersection` coincides with the spec section 4.2 formula. -/
theorem c4_amended_matches_code (a b : BufferLineMarker) :
    inIntersection a b = amendedOverlaps a b := by
  rcases a with ⟨as, ae, aid⟩
  rcases b with ⟨bs, be, bid⟩
  rw [Bool.eq_iff_iff]
  unfold inIntersection amendedOverlaps specOverlaps
  split_ifs <;> simp only [decide_eq_true_eq] <;> omega

/-- C5: the claim states every retained record length stays in
`(0, capacity/2]` and appendToNewest returns 0 rather than exceeding the
bound.  The generic `WriteToLastLine` checks only the pre-append length:
after two 2-byte writes, appending 12 bytes to line 1 of a capacity-16
buffer succeeds (returns 1, not 0) and leaves a retained record of length
14 > 16/2. -/
theorem c5_length_bound_violated :
    execR fresh16 c5ops = some ([0, 1, 1], c5final) ∧
    calculateLineLength c5final.bufferSize
        (linesAt c5final c5final.indexLastLine) = 14 ∧
    (14 : Int) > (c5final.bufferSize : Int) / 2 :=
  ⟨rfl, rfl, by decide⟩

/-- C6: `WriteLine` with `length = 0` or `length > bufferSize / 2` returns
the sentinel 0 and leaves the state unchanged (both guards run before any
mutation). -/
theorem c6_invalid_length_rejected (s : Buffer α) (data : List α) (n : Nat)
    (h : n = 0 ∨ n > s.bufferSize / 2) :
    WriteLine s data n = some (0, s) := by
  rcases h with h | h
  · simp [WriteLine, h]
  · rcases Nat.eq_zero_or_pos n with h0 | h0
    · simp [WriteLine, h0]
    · rw [WriteLine, if_neg (by omega), if_pos h]

/-- Witness for C6 at a concrete input: length 3 on a capacity-4 buffer. -/
theorem c6_invalid_length_rejected_witness :
    ((3 : Nat) = 0 ∨ 3 > (fresh 4 2 ([0, 0, 0, 0] : List Nat)).bufferSize / 2) ∧
    WriteLine (fresh 4 2 ([0, 0, 0, 0] : List Nat)) [1, 2, 3] 3 =
      some (0, fresh 4 2 [0, 0, 0, 0]) :=
  ⟨Or.inr (by decide),
   c6_invalid_length_rejected (fresh 4 2 [0, 0, 0, 0]) [1, 2, 3] 3
     (Or.inr (by decide))⟩

/-- C8: the claim states the eviction loop terminates for every write or
append of length at most capacity/2.  It does not: on `fresh16`, after
`WriteLine([9], 1)` (marker `{0,0}`), the call `WriteLine([10,11], 2)`
builds the marker `{1,2}` which `inIntersection` reports as intersecting
the marker `{0,0}` in every one of the four slots, so `FixIntersection`
cycles forever (the model returns `none` for every iteration budget). -/
theorem c8_eviction_loop_diverges :
    WriteLine (fresh 16 4 arena16) [9] 1 = some (0, c8state) ∧
    WriteLine c8state [10, 11] 2 = none ∧
    ∀ fuel, fixGo c8state.lines 4 fuel 0 ⟨1, 2, 1⟩ = none := by
  refine ⟨rfl, rfl, fun fuel => ?_⟩
  refine fixGo_none_of_all c8state.lines 4 ⟨1, 2, 1⟩ (by norm_num) ?_ fuel 0
    (by norm_num) (by norm_num)
  intro i h1 h2
  interval_cases i <;> decide

/-- C9 counterexample: scenario B asserts `writeRecord("ABCDEFGH", 8)` on
a capacity-10 buffer returns id 0 and occupies cells 0-7; in fact
`8 > 10 / 2`, so the call returns the failure sentinel 0 and the buffer
stays empty. -/
theorem c9_scenarioB_rejected :
    WriteLine fresh10 dataABCDEFGH 8 = some (0, fresh10) ∧
    fresh10.indexLastLine = -1 ∧ (8 : Nat) > 10 / 2 :=
  ⟨rfl, rfl, by norm_num⟩

/-- C9 amended: on capacity 10 the 8-byte write is rejected (buffer still
empty), so the following `writeRecord("XYZ", 3)` becomes the first record:
id 0, contiguous cells 0-2, no fragmentation and no eviction, and
`readOldest()` returns XYZ with id 0. -/
theorem c9_amended_scenarioB :
    execR fresh10 [.write dataABCDEFGH 8, .write [88, 89, 90] 3] =
      some ([0, 0], c9state) ∧
    linesAt c9state c9state.indexLastLine = ⟨0, 2, 0⟩ ∧
    ReadFirst c9state = some ⟨[88, 89, 90], 3, 0⟩ :=
  ⟨rfl, rfl, rfl⟩

/-- C10: the claim states every marker-array read of the placement code is
in `[0, maxRecords)` even on the first write.  In fact on any fresh buffer
the split condition (header line 175) reads `lines[-1].endIndex` before
any emptiness guard, so the checked model refuses every first write whose
length passes the guards. -/
theorem c10_first_write_reads_out_of_bounds (cap ml n : Nat)
    (arena0 data : List Nat) (h1 : n ≠ 0) (h2 : n ≤ cap / 2) :
    WriteLineChecked (fresh cap ml arena0) data n = none := by
  have hcap : (fresh cap ml arena0).bufferSize = cap := rfl
  rw [WriteLineChecked, if_neg h1, if_neg (by rw [hcap]; omega)]
  have hnone :
      linesAtChecked (fresh cap ml arena0) (fresh cap ml arena0).indexLastLine = none := by
    simp [linesAtChecked, fresh]
  rw [hnone]

/-- Witness for C10: the first write of AB on a fresh capacity-16 buffer. -/
theorem c10_first_write_reads_out_of_bounds_witness :
    (2 : Nat) ≠ 0 ∧ (2 : Nat) ≤ 16 / 2 ∧
    WriteLineChecked (fresh 16 4 arena16) [1, 2] 2 = none :=
  ⟨by decide, by decide,
   c10_first_write_reads_out_of_bounds 16 4 2 arena16 [1, 2]
     (by decide) (by decide)⟩

/-- C7: amended stale-append rejection.  If `writeRecord` returns id `k`
and then a sequence of calls containing between `1` and `2 ^ 32 - 1`
accepted writes runs, `appendToNewest(k, _, _)` returns `0` and leaves the
buffer unchanged.  The bound `c < 2 ^ 32` is necessary: ids are 32-bit, so
after exactly `2 ^ 32` further accepted writes the id counter wraps back
to `k` and the stale append is accepted (see
`c7_stale_append_id_wraparound`). -/
theorem c7_amended_stale_append (s w t : Buffer α) (d d2 : List α)
    (L k c n2 : Nat) (ops : List (Op α))
    (hWFc : WFcursors s) (h0 : ¬ L = 0) (h1 : ¬ L > s.bufferSize / 2)
    (hw : WriteLine s d L = some (k, w))
    (hops : execN w ops = some (c, t))
    (hc1 : 1 ≤ c) (hc2 : c < 2 ^ 32) :
    WriteToLastLine t k d2 n2 = some (0, t) := by
  obtain ⟨hWFw, hnew, hkid, hklt⟩ := WriteLine_accepted s d L k w hWFc h0 h1 hw
  obtain ⟨hWFt, hnet, hidt⟩ :=
    execN_newestId ops w c t hWFw hnew (by rw [hkid]; exact hklt) hops
  have hne2 : k ≠ (linesAt t t.indexLastLine).id := by
    show k ≠ newestId t
    rw [hidt, hkid]
    omega
  simp only [WriteToLastLine]
  rw [if_pos (Or.inr (Or.inl hne2))]

/-- Witness for `c7_amended_stale_append`: on a fresh capacity-4, 2-slot
buffer, `writeRecord([1,2], 2)` returns id 0; after one further accepted
write, `appendToNewest(0, [9], 1)` returns 0 and changes nothing. -/
theorem c7_amended_stale_append_witness :
    WFcursors (fresh 4 2 [0, 0, 0, 0]) ∧
    WriteLine (fresh 4 2 [0, 0, 0, 0]) [1, 2] 2 = some (0, c7w1) ∧
    execN c7w1 [Op.write [3, 4] 2] = some (1, c7w2) ∧
    WriteToLastLine c7w2 0 [9] 1 = some (0, c7w2) :=
  ⟨by decide, by with_unfolding_all rfl, by with_unfolding_all rfl,
   c7_amended_stale_append (fresh 4 2 [0, 0, 0, 0]) c7w1 c7w2 [1, 2] [9]
     2 0 1 1 [Op.write [3, 4] 2] (by decide) (by decide) (by decide)
     (by with_unfolding_all rfl) (by with_unfolding_all rfl)
     (by decide) (by decide)⟩

/-- C7 as claimed is false: ids are 32-bit.  The second write on the
fresh capacity-16, 2-slot buffer returns id 1; after `2 ^ 32` further
successful writes of the same 8-byte payload (the buffer then sits in the
steady state `orbit (2 + 2 ^ 32)`), the newest id has wrapped back to 1,
so `appendToNewest(1, _, 0)` is accepted and returns 1, not the sentinel
0 the claim requires. -/
theorem c7_stale_append_id_wraparound :
    execR (fresh 16 2 (List.replicate 16 0)) [Op.write d8 8, Op.write d8 8] =
      some ([0, 1], orbit 2) ∧
    iterW (2 + 2 ^ 32) = some (orbit (2 + 2 ^ 32)) ∧
    newestId (orbit (2 + 2 ^ 32)) = 1 ∧
    WriteToLastLine (orbit (2 + 2 ^ 32)) 1 d8 0 =
      some (1, orbit (2 + 2 ^ 32)) ∧
    (1 : Nat) ≠ 0 :=
  ⟨by with_unfolding_all rfl, iterW_orbit (2 ^ 32), by decide,
   by with_unfolding_all rfl, by decide⟩

end FCBuf
